import Mathlib

/-!
# Verification of the `dynamic-otp-npm` OTP input component

Shallow embedding of `src/src/components/OtpInput.tsx`: the component state is
the slot sequence `otp : List String` plus the (implicit DOM) focus index.  The
three event handlers `handleChange`, `handleClick` and `handleKeyDown` are
translated directly from the source; JavaScript builtins used by the source
(`Number` string conversion, `String.prototype.substring`,
`Array.prototype.findIndex`) are modelled by executable Lean functions
following ECMAScript semantics.
-/

set_option autoImplicit false

namespace DynamicOtp

/-! ## JavaScript builtins used by the source -/

/-- ECMAScript whitespace characters trimmed by `Number(string)` conversion:
`WhiteSpace` (tab, VT, FF, space, NBSP, BOM, and the Unicode space
separators U+1680, U+2000-U+200A, U+202F, U+205F, U+3000) and
`LineTerminator` (LF, CR, LS, PS); all are single UTF-16 units. -/
def isJsWhitespace (c : Char) : Bool :=
  c = ' ' || c = '\t' || c = '\n' || c = '\r' || c = '\x0b' || c = '\x0c' ||
  c = '\u00A0' || c = '\uFEFF' || c = '\u1680' ||
  ('\u2000' ≤ c && c ≤ '\u200A') ||
  c = '\u2028' || c = '\u2029' || c = '\u202F' || c = '\u205F' || c = '\u3000'

def isDecDigitChar (c : Char) : Bool := '0' ≤ c && c ≤ '9'

def isHexDigitChar (c : Char) : Bool :=
  isDecDigitChar c || ('a' ≤ c && c ≤ 'f') || ('A' ≤ c && c ≤ 'F')

def isOctDigitChar (c : Char) : Bool := '0' ≤ c && c ≤ '7'

def isBinDigitChar (c : Char) : Bool := c = '0' || c = '1'

/-- Recognizes an optional ECMAScript `ExponentPart` (`e`/`E`, optional sign,
one or more decimal digits) standing at the end of the literal. -/
def exponentOk : List Char → Bool
  | [] => true
  | c :: rest =>
    if c = 'e' || c = 'E' then
      let rest2 :=
        match rest with
        | s :: t => if s = '+' || s = '-' then t else s :: t
        | [] => []
      !rest2.isEmpty && rest2.all isDecDigitChar
    else false

/-- Recognizes an ECMAScript `StrUnsignedDecimalLiteral`:
`Infinity`, `Digits [. Digits] [Exponent]`, or `. Digits [Exponent]`. -/
def unsignedDecimalOk (l : List Char) : Bool :=
  if l == "Infinity".toList then true
  else
    let p := l.span isDecDigitChar
    if !p.1.isEmpty then
      match p.2 with
      | '.' :: rest2 => exponentOk (rest2.dropWhile isDecDigitChar)
      | rest => exponentOk rest
    else
      match l with
      | '.' :: rest2 =>
        let q := rest2.span isDecDigitChar
        !q.1.isEmpty && exponentOk q.2
      | _ => false

/-- Recognizes an ECMAScript `StrNumericLiteral` (trimmed, non-empty):
signed decimal literal, or unsigned hex/octal/binary literal. -/
def strNumericLiteralOk (l : List Char) : Bool :=
  match l with
  | '+' :: rest => unsignedDecimalOk rest
  | '-' :: rest => unsignedDecimalOk rest
  | '0' :: c :: rest =>
    if c = 'x' || c = 'X' then !rest.isEmpty && rest.all isHexDigitChar
    else if c = 'o' || c = 'O' then !rest.isEmpty && rest.all isOctDigitChar
    else if c = 'b' || c = 'B' then !rest.isEmpty && rest.all isBinDigitChar
    else unsignedDecimalOk ('0' :: c :: rest)
  | _ => unsignedDecimalOk l

/-- Models the guard `isNaN(Number(value))` of the source: `Number(string)`
trims whitespace, converts the empty remainder to `0`, and yields `NaN`
exactly when the remainder is not a `StrNumericLiteral`. -/
def jsNumberIsNaN (value : String) : Bool :=
  let trimmed :=
    ((value.toList.dropWhile isJsWhitespace).reverse.dropWhile isJsWhitespace).reverse
  if trimmed.isEmpty then false
  else !(strNumericLiteralOk trimmed)

/-- Models `value.substring(value.length - 1)` of the source: the suffix
starting at the next-to-last position (empty for the empty string, since
`substring` clamps the negative start index to `0`). -/
def lastCharString (value : String) : String :=
  String.mk (value.toList.drop (value.toList.length - 1))

/-- Modelled from the spec's words, for comparison with `lastCharString`:
"effective value = last character of input text, or empty if input text is
empty". -/
def effectiveValueSpec (value : String) : String :=
  match value.toList.getLast? with
  | none => ""
  | some c => String.mk [c]

/-- Models `Array.prototype.findIndex`: index of the first element satisfying
the predicate, `-1` when none does. -/
def findIndex (p : String → Bool) : List String → Int
  | [] => -1
  | x :: xs =>
    if p x then 0
    else
      let r := findIndex p xs
      if r = -1 then -1 else r + 1

/-! ## Component state and event handlers -/

/-- Component state: the slot sequence `otp` (React `useState` array) and the
index of the slot currently holding DOM focus. -/
structure OtpState where
  otp : List String
  focus : Nat
deriving DecidableEq

/-- `handleChange(index, event)` from the source, as a function of the raw new
text `value = event.target.value`.  Returns the new state together with the
argument of the `onOtpSubmit` call, if one is made. -/
def handleChange (length : Nat) (s : OtpState) (index : Nat) (value : String) :
    OtpState × Option String :=
  if jsNumberIsNaN value then (s, none)
  else
    let newOtp := s.otp.set index (lastCharString value)
    let combinedOtp := String.join newOtp
    let submitted : Option String :=
      if combinedOtp.length = length then some combinedOtp else none
    let focusAfterFill : Nat :=
      if value ≠ "" ∧ index < length - 1 then index + 1 else s.focus
    let focusAfterDelete : Nat :=
      if value = "" ∧ 0 < index then index - 1 else focusAfterFill
    ({ otp := newOtp, focus := focusAfterDelete }, submitted)

/-- `handleClick(index)` from the source.  A DOM click first focuses the
clicked slot; the handler then possibly redirects focus to the first empty
slot (`setSelectionRange` is cosmetic and stateless, so it is not modelled). -/
def handleClick (s : OtpState) (index : Nat) : OtpState :=
  let s1 : OtpState := { s with focus := index }
  if 0 < index ∧ s1.otp.getD (index - 1) "" = "" then
    let firstEmptyIndex := findIndex (fun v => v = "") s1.otp
    if firstEmptyIndex ≠ -1 then { s1 with focus := firstEmptyIndex.toNat } else s1
  else s1

/-- `handleKeyDown(index, event)` from the source, as a function of
`event.key`. -/
def handleKeyDown (s : OtpState) (index : Nat) (key : String) : OtpState :=
  if key = "Backspace" ∧ s.otp.getD index "" = "" ∧ 0 < index then
    { s with focus := index - 1 }
  else s

/-! ## Events and reachability -/

/-- The user events the rendered inputs can deliver to the handlers. -/
inductive Event where
  | change (index : Nat) (value : String)
  | click (index : Nat)
  | keydown (index : Nat) (key : String)
deriving DecidableEq

/-- An event is valid when its slot index is one of the rendered slots. -/
def Event.valid (length : Nat) : Event → Prop
  | .change i _ => i < length
  | .click i => i < length
  | .keydown i _ => i < length

/-- A change event is digit-only when its raw text consists of decimal digits;
clicks and keydowns carry no text. -/
def Event.digitOnly : Event → Bool
  | .change _ v => v.toList.all isDecDigitChar
  | .click _ => true
  | .keydown _ _ => true

/-- One step of the component: dispatch an event to its handler (the submit
output of `handleChange` does not affect the state). -/
def step (length : Nat) (s : OtpState) : Event → OtpState
  | .change i v => (handleChange length s i v).1
  | .click i => handleClick s i
  | .keydown i k => handleKeyDown s i k

/-- The mount state: `Array(length).fill("")`, focus on slot 0 (the
`useEffect` focuses `inputRefs.current[0]`). -/
def initState (length : Nat) : OtpState :=
  { otp := List.replicate length "", focus := 0 }

/-- States reachable from the mount state by valid events. -/
def Reachable (length : Nat) (s : OtpState) : Prop :=
  ∃ evs : List Event, (∀ e ∈ evs, e.valid length) ∧
    s = evs.foldl (step length) (initState length)

/-- States reachable from the mount state by valid, digit-only events. -/
def ReachableDigits (length : Nat) (s : OtpState) : Prop :=
  ∃ evs : List Event, (∀ e ∈ evs, e.valid length) ∧
    (∀ e ∈ evs, e.digitOnly = true) ∧
    s = evs.foldl (step length) (initState length)

/-- A slot value as the spec's data model describes it: empty or a single
numeric digit `"0"`-`"9"`. -/
def slotOk (x : String) : Bool :=
  x = "" || (x.toList.length = 1 && x.toList.all isDecDigitChar)

/-! ## Helper lemmas -/

lemma string_length_eq_zero_iff (s : String) : s.length = 0 ↔ s = "" := by
  constructor
  · intro h
    cases s with
    | mk d =>
      have hd : d.length = 0 := h
      have hnil : d = [] := List.length_eq_zero.mp hd
      rw [hnil]
  · intro h
    rw [h]
    rfl

lemma toList_eq_nil_iff (v : String) : v.toList = [] ↔ v = "" := by
  constructor
  · intro h
    cases v with
    | mk d =>
      have hd : d = [] := h
      rw [hd]
  · intro h
    rw [h]
    rfl

lemma lastCharString_length_le (v : String) : (lastCharString v).length ≤ 1 := by
  show (v.toList.drop (v.toList.length - 1)).length ≤ 1
  rw [List.length_drop]
  omega

lemma drop_pred_length : ∀ l : List Char, l.drop (l.length - 1) = l.getLast?.toList
  | [] => rfl
  | [_] => rfl
  | a :: b :: t => by
    have ih := drop_pred_length (b :: t)
    rw [List.getLast?_cons_cons, ← ih]
    show List.drop (t.length + 1) (a :: b :: t) = List.drop ((b :: t).length - 1) (b :: t)
    rw [List.drop_succ_cons]
    simp [List.length_cons]

lemma lastCharString_eq_effectiveValueSpec (v : String) :
    lastCharString v = effectiveValueSpec v := by
  unfold lastCharString effectiveValueSpec
  rw [drop_pred_length]
  cases v.toList.getLast? <;> rfl

lemma effectiveValueSpec_eq_empty_iff (v : String) :
    effectiveValueSpec v = "" ↔ v = "" := by
  unfold effectiveValueSpec
  cases hl : v.toList.getLast? with
  | none =>
    have hnil : v.toList = [] := List.getLast?_eq_none_iff.mp hl
    have hv : v = "" := (toList_eq_nil_iff v).mp hnil
    simp [hv]
  | some c =>
    constructor
    · intro h
      have : ([c] : List Char) = [] := congrArg String.toList h
      exact absurd this (by simp)
    · intro h
      rw [h] at hl
      exact absurd hl (by simp)

lemma lastCharString_eq_empty_iff (v : String) : lastCharString v = "" ↔ v = "" := by
  rw [lastCharString_eq_effectiveValueSpec]
  exact effectiveValueSpec_eq_empty_iff v

lemma length_foldl_append : ∀ (l : List String) (a : String),
    (l.foldl (fun r s => r ++ s) a).length = a.length + (l.map String.length).sum
  | [], a => by simp
  | x :: xs, a => by
    rw [List.foldl_cons, length_foldl_append xs (a ++ x)]
    simp [String.length_append]
    omega

lemma string_join_length (l : List String) :
    (String.join l).length = (l.map String.length).sum := by
  have h := length_foldl_append l ""
  simpa [String.join] using h

lemma sum_map_length_le : ∀ l : List String, (∀ x ∈ l, x.length ≤ 1) →
    (l.map String.length).sum ≤ l.length
  | [], _ => Nat.le_refl 0
  | x :: xs, h => by
    simp only [List.map_cons, List.sum_cons, List.length_cons]
    have hx := h x (List.mem_cons_self x xs)
    have hxs := sum_map_length_le xs (fun y hy => h y (List.mem_cons_of_mem x hy))
    omega

lemma sum_map_length_eq_iff : ∀ l : List String, (∀ x ∈ l, x.length ≤ 1) →
    ((l.map String.length).sum = l.length ↔ ∀ x ∈ l, x ≠ "")
  | [], _ => by simp
  | x :: xs, h => by
    have hx := h x (List.mem_cons_self x xs)
    have hxs := fun y hy => h y (List.mem_cons_of_mem x hy)
    have hle := sum_map_length_le xs hxs
    have ih := sum_map_length_eq_iff xs hxs
    simp only [List.map_cons, List.sum_cons, List.length_cons, List.mem_cons]
    constructor
    · intro heq
      have hx1 : x.length = 1 := by omega
      have hsum : (xs.map String.length).sum = xs.length := by omega
      intro y hy
      rcases hy with rfl | hy
      · intro hcon
        rw [hcon] at hx1
        simp [string_length_eq_zero_iff] at hx1
      · exact (ih.mp hsum) y hy
    · intro hall
      have hx0 : x ≠ "" := hall x (Or.inl rfl)
      have hx1 : x.length = 1 := by
        have hne : x.length ≠ 0 := fun h0 => hx0 ((string_length_eq_zero_iff x).mp h0)
        omega
      have hsum : (xs.map String.length).sum = xs.length :=
        ih.mpr (fun y hy => hall y (Or.inr hy))
      omega

lemma handleChange_otp (length : Nat) (s : OtpState) (i : Nat) (v : String)
    (hv : jsNumberIsNaN v = false) :
    (handleChange length s i v).1.otp = s.otp.set i (lastCharString v) := by
  simp [handleChange, hv]

lemma handleClick_otp (s : OtpState) (i : Nat) : (handleClick s i).otp = s.otp := by
  unfold handleClick
  dsimp only
  split_ifs <;> rfl

lemma handleKeyDown_otp (s : OtpState) (i : Nat) (k : String) :
    (handleKeyDown s i k).otp = s.otp := by
  unfold handleKeyDown
  split_ifs <;> rfl

lemma step_otp_length (length : Nat) (s : OtpState) (e : Event) :
    (step length s e).otp.length = s.otp.length := by
  cases e with
  | change i v =>
    show (handleChange length s i v).1.otp.length = s.otp.length
    by_cases hv : jsNumberIsNaN v = true
    · simp [handleChange, hv]
    · rw [handleChange_otp length s i v (by simpa using hv), List.length_set]
  | click i =>
    show (handleClick s i).otp.length = s.otp.length
    rw [handleClick_otp]
  | keydown i k =>
    show (handleKeyDown s i k).otp.length = s.otp.length
    rw [handleKeyDown_otp]

lemma step_slots_short (length : Nat) (s : OtpState) (e : Event)
    (h : ∀ x ∈ s.otp, x.length ≤ 1) :
    ∀ x ∈ (step length s e).otp, x.length ≤ 1 := by
  cases e with
  | change i v =>
    intro x hx
    by_cases hv : jsNumberIsNaN v = true
    · simp only [step, handleChange, hv, if_pos] at hx
      exact h x hx
    · rw [show step length s (.change i v) = (handleChange length s i v).1 from rfl,
        handleChange_otp length s i v (by simpa using hv)] at hx
      rcases List.mem_or_eq_of_mem_set hx with hmem | rfl
      · exact h x hmem
      · exact lastCharString_length_le v
  | click i =>
    intro x hx
    rw [show step length s (.click i) = handleClick s i from rfl, handleClick_otp] at hx
    exact h x hx
  | keydown i k =>
    intro x hx
    rw [show step length s (.keydown i k) = handleKeyDown s i k from rfl,
      handleKeyDown_otp] at hx
    exact h x hx

lemma foldl_inv (length : Nat) : ∀ (evs : List Event) (s0 : OtpState),
    s0.otp.length = length → (∀ x ∈ s0.otp, x.length ≤ 1) →
    (evs.foldl (step length) s0).otp.length = length ∧
      ∀ x ∈ (evs.foldl (step length) s0).otp, x.length ≤ 1
  | [], _, h1, h2 => ⟨h1, h2⟩
  | e :: evs, s0, h1, h2 => by
    rw [List.foldl_cons]
    exact foldl_inv length evs (step length s0 e)
      ((step_otp_length length s0 e).trans h1) (step_slots_short length s0 e h2)

lemma reachable_inv (length : Nat) (s : OtpState) (h : Reachable length s) :
    s.otp.length = length ∧ ∀ x ∈ s.otp, x.length ≤ 1 := by
  obtain ⟨evs, -, rfl⟩ := h
  refine foldl_inv length evs (initState length) ?_ ?_
  · exact List.length_replicate length ""
  · intro x hx
    rw [(List.mem_replicate.mp hx).2]
    exact Nat.zero_le 1

lemma findIndex_ge_neg_one (p : String → Bool) :
    ∀ l : List String, -1 ≤ findIndex p l
  | [] => le_refl (-1)
  | x :: xs => by
    have ih := findIndex_ge_neg_one p xs
    show -1 ≤ (if p x = true then (0 : Int)
      else if findIndex p xs = -1 then -1 else findIndex p xs + 1)
    split_ifs <;> omega

lemma findIndex_le_of_sat (p : String → Bool) :
    ∀ (l : List String) (k : Nat), k < l.length → p (l.getD k "") = true →
    findIndex p l ≠ -1 ∧ (findIndex p l).toNat ≤ k
  | [], k, hk, _ => absurd hk (by simp)
  | x :: xs, k, hk, hp => by
    unfold findIndex
    by_cases hx : p x = true
    · simp [hx]
    · cases k with
      | zero =>
        have : p x = true := hp
        exact absurd this hx
      | succ k2 =>
        have hlt : k2 < xs.length := by simpa using hk
        have hp2 : p (xs.getD k2 "") = true := hp
        have ih := findIndex_le_of_sat p xs k2 hlt hp2
        have hge := findIndex_ge_neg_one p xs
        rw [if_neg hx, if_neg ih.1]
        refine ⟨by omega, by omega⟩

lemma findIndex_spec (p : String → Bool) :
    ∀ l : List String, findIndex p l ≠ -1 →
    (findIndex p l).toNat < l.length ∧
      p (l.getD (findIndex p l).toNat "") = true ∧
      ∀ k < (findIndex p l).toNat, p (l.getD k "") = false
  | [], h => absurd rfl h
  | x :: xs, h => by
    by_cases hx : p x = true
    · have h0 : findIndex p (x :: xs) = 0 := by
        show (if p x = true then (0 : Int)
          else if findIndex p xs = -1 then -1 else findIndex p xs + 1) = 0
        rw [if_pos hx]
      rw [h0]
      exact ⟨by simp, hx, fun k hk => absurd hk (by omega)⟩
    · have hr : findIndex p xs ≠ -1 := by
        intro hcon
        apply h
        show (if p x = true then (0 : Int)
          else if findIndex p xs = -1 then -1 else findIndex p xs + 1) = -1
        rw [if_neg hx, if_pos hcon]
      have ih := findIndex_spec p xs hr
      have hge := findIndex_ge_neg_one p xs
      have hstep : findIndex p (x :: xs) = findIndex p xs + 1 := by
        show (if p x = true then (0 : Int)
          else if findIndex p xs = -1 then -1 else findIndex p xs + 1) =
          findIndex p xs + 1
        rw [if_neg hx, if_neg hr]
      have htn : (findIndex p (x :: xs)).toNat = (findIndex p xs).toNat + 1 := by
        rw [hstep]; omega
      rw [htn]
      refine ⟨by simpa using ih.1, ih.2.1, ?_⟩
      intro k hk
      cases k with
      | zero => simpa using hx
      | succ k2 => exact ih.2.2 k2 (by omega)

lemma slotOk_mk_single (c : Char) (hc : isDecDigitChar c = true) :
    slotOk (String.mk [c]) = true := by
  have htl : (String.mk [c]).toList = [c] := rfl
  simp [slotOk, htl, hc]

lemma lastCharString_slotOk (v : String) (hv : v.toList.all isDecDigitChar = true) :
    slotOk (lastCharString v) = true := by
  unfold lastCharString
  rcases hd : v.toList.drop (v.toList.length - 1) with _ | ⟨c, rest⟩
  · rfl
  · have hlen : (v.toList.drop (v.toList.length - 1)).length ≤ 1 := by
      rw [List.length_drop]
      omega
    rw [hd] at hlen
    simp only [List.length_cons] at hlen
    have hrest : rest = [] := by
      cases rest with
      | nil => rfl
      | cons a t => simp at hlen
    subst hrest
    have hc : c ∈ v.toList := by
      refine List.drop_subset (v.toList.length - 1) v.toList ?_
      rw [hd]
      exact List.mem_cons_self c []
    have hcd : isDecDigitChar c = true := by
      rw [List.all_eq_true] at hv
      exact hv c hc
    exact slotOk_mk_single c hcd

lemma step_slotOk (length : Nat) (s : OtpState) (e : Event)
    (hd : e.digitOnly = true) (h : ∀ x ∈ s.otp, slotOk x = true) :
    ∀ x ∈ (step length s e).otp, slotOk x = true := by
  cases e with
  | change i v =>
    intro x hx
    by_cases hv : jsNumberIsNaN v = true
    · simp only [step, handleChange, hv, if_pos] at hx
      exact h x hx
    · rw [show step length s (.change i v) = (handleChange length s i v).1 from rfl,
        handleChange_otp length s i v (by simpa using hv)] at hx
      rcases List.mem_or_eq_of_mem_set hx with hmem | rfl
      · exact h x hmem
      · exact lastCharString_slotOk v (by simpa [Event.digitOnly] using hd)
  | click i =>
    intro x hx
    rw [show step length s (.click i) = handleClick s i from rfl, handleClick_otp] at hx
    exact h x hx
  | keydown i k =>
    intro x hx
    rw [show step length s (.keydown i k) = handleKeyDown s i k from rfl,
      handleKeyDown_otp] at hx
    exact h x hx

lemma foldl_slotOk (length : Nat) : ∀ (evs : List Event) (s0 : OtpState),
    (∀ e ∈ evs, e.digitOnly = true) → (∀ x ∈ s0.otp, slotOk x = true) →
    ∀ x ∈ (evs.foldl (step length) s0).otp, slotOk x = true
  | [], _, _, h0 => h0
  | e :: evs, s0, hd, h0 => by
    rw [List.foldl_cons]
    exact foldl_slotOk length evs (step length s0 e)
      (fun e2 he2 => hd e2 (List.mem_cons_of_mem e he2))
      (step_slotOk length s0 e (hd e (List.mem_cons_self e evs)) h0)

lemma reachableDigits_slotOk (length : Nat) (s : OtpState)
    (hr : ReachableDigits length s) : ∀ x ∈ s.otp, slotOk x = true := by
  obtain ⟨evs, -, hd, rfl⟩ := hr
  refine foldl_slotOk length evs (initState length) hd ?_
  intro x hx
  rw [(List.mem_replicate.mp hx).2]
  rfl

/-! ## Claim theorems -/

/-- C2: a change event whose raw text fails the source's numeric test
(`isNaN(Number(value))` is true) is rejected outright: the state — slots and
focus alike — is returned unchanged and the completion callback is not
invoked; the empty string passes the test (it encodes deletion). -/
theorem change_rejects_non_numeric (length : Nat) (s : OtpState) (i : Nat)
    (v : String) (hv : jsNumberIsNaN v = true) :
    handleChange length s i v = (s, none) ∧ jsNumberIsNaN "" = false := by
  constructor
  · simp [handleChange, hv]
  · rfl

/-- C2 witness: the non-numeric keystroke "a" at slot 1 leaves the state
untouched and produces no callback. -/
theorem change_rejects_non_numeric_witness :
    handleChange 4 ⟨["1", "", "", ""], 1⟩ 1 "a" = (⟨["1", "", "", ""], 1⟩, none) ∧
      jsNumberIsNaN "" = false :=
  change_rejects_non_numeric 4 ⟨["1", "", "", ""], 1⟩ 1 "a" (by decide)

/-- C7: the key-down handler never touches the slot sequence; on Backspace at
an already-empty slot i with i > 0 it moves focus to slot i-1, and in every
other case (other key, non-empty slot, or i = 0) it is the identity on the
whole state. -/
theorem keydown_backspace_focus (s : OtpState) (i : Nat) (k : String) :
    (handleKeyDown s i k).otp = s.otp ∧
    (k = "Backspace" → s.otp.getD i "" = "" → 0 < i →
      (handleKeyDown s i k).focus = i - 1) ∧
    (¬ (k = "Backspace" ∧ s.otp.getD i "" = "" ∧ 0 < i) →
      handleKeyDown s i k = s) := by
  refine ⟨handleKeyDown_otp s i k, ?_, ?_⟩
  · intro h1 h2 h3
    unfold handleKeyDown
    rw [if_pos ⟨h1, h2, h3⟩]
  · intro h
    unfold handleKeyDown
    rw [if_neg h]

/-- C10: for an accepted change the two focus-shift guards of the source are
mutually exclusive (the raw text is either empty or not, and the effective
value is empty exactly when the raw text is), so the handler moves focus to at
most one target: slot i+1, slot i-1, or the previously focused slot. -/
theorem change_focus_exclusive (length : Nat) (s : OtpState) (i : Nat)
    (v : String) (hv : jsNumberIsNaN v = false) :
    ¬ ((v ≠ "" ∧ i < length - 1) ∧ (v = "" ∧ 0 < i)) ∧
    (effectiveValueSpec v = "" ↔ v = "") ∧
    ((handleChange length s i v).1.focus = i + 1 ∨
      (handleChange length s i v).1.focus = i - 1 ∨
      (handleChange length s i v).1.focus = s.focus) := by
  refine ⟨fun h => h.1.1 h.2.1, effectiveValueSpec_eq_empty_iff v, ?_⟩
  simp only [handleChange, hv, Bool.false_eq_true, if_false]
  split_ifs <;> simp

/-- C10 witness: deleting the content of slot 1 (raw text "") moves focus to
exactly one target, slot 0. -/
theorem change_focus_exclusive_witness :
    ¬ ((("" : String) ≠ "" ∧ 1 < 4 - 1) ∧ (("" : String) = "" ∧ 0 < 1)) ∧
    (effectiveValueSpec "" = "" ↔ ("" : String) = "") ∧
    ((handleChange 4 ⟨["1", "2", "", ""], 1⟩ 1 "").1.focus = 1 + 1 ∨
      (handleChange 4 ⟨["1", "2", "", ""], 1⟩ 1 "").1.focus = 1 - 1 ∨
      (handleChange 4 ⟨["1", "2", "", ""], 1⟩ 1 "").1.focus = 1) :=
  change_focus_exclusive 4 ⟨["1", "2", "", ""], 1⟩ 1 "" (by decide)

/-- C4: for an accepted change at a slot i within bounds, the value written
into slot i — `value.substring(value.length - 1)` in the source — is the last
character of the raw text, or the empty string when the raw text is empty. -/
theorem change_writes_last_char (length : Nat) (s : OtpState) (i : Nat)
    (v : String) (hv : jsNumberIsNaN v = false) (hi : i < s.otp.length) :
    (handleChange length s i v).1.otp.getD i "" = effectiveValueSpec v ∧
    (v = "" → effectiveValueSpec v = "") ∧
    (∀ c : Char, v.toList.getLast? = some c → effectiveValueSpec v = String.mk [c]) := by
  refine ⟨?_, ?_, ?_⟩
  · rw [handleChange_otp length s i v hv, lastCharString_eq_effectiveValueSpec v]
    simp [List.getD_eq_getElem?_getD, List.getElem?_set_self, hi]
  · intro h
    rw [h]
    rfl
  · intro c hc
    unfold effectiveValueSpec
    rw [hc]

/-- C4 witness: overtyping slot 1 of ["1","2","3","4"] with raw text "29"
writes only the last character "9". -/
theorem change_writes_last_char_witness :
    (handleChange 4 ⟨["1", "2", "3", "4"], 1⟩ 1 "29").1.otp.getD 1 "" =
      effectiveValueSpec "29" ∧
    (("29" : String) = "" → effectiveValueSpec "29" = "") ∧
    (∀ c : Char, ("29" : String).toList.getLast? = some c →
      effectiveValueSpec "29" = String.mk [c]) :=
  change_writes_last_char 4 ⟨["1", "2", "3", "4"], 1⟩ 1 "29" (by decide) (by decide)

/-- C5: focus movement of an accepted change: a non-empty effective value at a
slot i < length-1 moves focus to slot i+1; a non-empty effective value at the
last slot leaves focus where it was (no forward move); an empty effective
value (deletion) at a slot i > 0 moves focus to slot i-1. -/
theorem change_focus_shift (length : Nat) (s : OtpState) (i : Nat) (v : String)
    (hv : jsNumberIsNaN v = false) :
    (effectiveValueSpec v ≠ "" → i < length - 1 →
      (handleChange length s i v).1.focus = i + 1) ∧
    (effectiveValueSpec v ≠ "" → i = length - 1 →
      (handleChange length s i v).1.focus = s.focus) ∧
    (effectiveValueSpec v = "" → 0 < i →
      (handleChange length s i v).1.focus = i - 1) := by
  have hiff := effectiveValueSpec_eq_empty_iff v
  refine ⟨?_, ?_, ?_⟩
  · intro h1 h2
    have hne : v ≠ "" := fun h => h1 (hiff.mpr h)
    simp only [handleChange, hv, Bool.false_eq_true, if_false]
    rw [if_neg (by simp [hne]), if_pos ⟨hne, h2⟩]
  · intro h1 h2
    have hne : v ≠ "" := fun h => h1 (hiff.mpr h)
    have hnlt : ¬ i < length - 1 := by omega
    simp only [handleChange, hv, Bool.false_eq_true, if_false]
    rw [if_neg (by simp [hne]), if_neg (by simp [hnlt])]
  · intro h1 h2
    have he : v = "" := hiff.mp h1
    simp only [handleChange, hv, Bool.false_eq_true, if_false]
    rw [if_pos ⟨he, h2⟩]

/-- C5 witness: typing "5" into slot 2 of four moves focus to slot 3; typing
into the last slot leaves focus unchanged; deleting slot 2 moves focus to
slot 1. -/
theorem change_focus_shift_witness :
    (effectiveValueSpec "5" ≠ "" → 2 < 4 - 1 →
      (handleChange 4 ⟨["1", "2", "", ""], 2⟩ 2 "5").1.focus = 2 + 1) ∧
    (effectiveValueSpec "5" ≠ "" → 2 = 4 - 1 →
      (handleChange 4 ⟨["1", "2", "", ""], 2⟩ 2 "5").1.focus = 2) ∧
    (effectiveValueSpec "5" = "" → 0 < 2 →
      (handleChange 4 ⟨["1", "2", "", ""], 2⟩ 2 "5").1.focus = 2 - 1) :=
  change_focus_shift 4 ⟨["1", "2", "", ""], 2⟩ 2 "5" (by decide)

/-- C8: frame condition: an accepted change leaves every slot j ≠ i exactly as
it was and keeps the slot count at `length` (the slot count of any reachable
state), and no handler — change, click or keydown — ever resizes the
sequence. -/
theorem change_frame (length : Nat) (s : OtpState) (i : Nat) (v : String)
    (hr : Reachable length s) (hv : jsNumberIsNaN v = false) :
    (∀ j, j ≠ i → (handleChange length s i v).1.otp.getD j "" = s.otp.getD j "") ∧
    (handleChange length s i v).1.otp.length = length ∧
    s.otp.length = length ∧
    (∀ e : Event, (step length s e).otp.length = length) := by
  have hlen := (reachable_inv length s hr).1
  refine ⟨?_, ?_, hlen, ?_⟩
  · intro j hj
    rw [handleChange_otp length s i v hv]
    simp [List.getD_eq_getElem?_getD, List.getElem?_set_ne (fun h => hj h.symm)]
  · rw [handleChange_otp length s i v hv, List.length_set]
    exact hlen
  · intro e
    rw [step_otp_length length s e]
    exact hlen

/-- C8 witness: writing "9" at slot 2 of the reachable state ["1","2","3","4"]
leaves slots 0, 1 and 3 unchanged and the slot count at 4, as does every
handler. -/
theorem change_frame_witness :
    (∀ j, j ≠ 2 →
      (handleChange 4 ⟨["1", "2", "3", "4"], 3⟩ 2 "9").1.otp.getD j "" =
        (⟨["1", "2", "3", "4"], 3⟩ : OtpState).otp.getD j "") ∧
    (handleChange 4 ⟨["1", "2", "3", "4"], 3⟩ 2 "9").1.otp.length = 4 ∧
    (⟨["1", "2", "3", "4"], 3⟩ : OtpState).otp.length = 4 ∧
    (∀ e : Event, (step 4 (⟨["1", "2", "3", "4"], 3⟩ : OtpState) e).otp.length = 4) :=
  change_frame 4 ⟨["1", "2", "3", "4"], 3⟩ 2 "9"
    ⟨[.change 0 "1", .change 1 "2", .change 2 "3", .change 3 "4"],
      by intro e he; fin_cases he <;> simp [Event.valid], by decide⟩
    (by decide)

/-- C1: after every accepted change from a reachable state the completion
callback is invoked with the freshly recomputed concatenation of the slots if
and only if that concatenation's length equals `length`, which holds exactly
when every slot is non-empty; in particular editing slot 2 of
["1","2","3","4"] to "9" fires the callback again, with "1294". -/
theorem change_submits_iff_complete (length : Nat) (s : OtpState) (i : Nat)
    (v : String) (hr : Reachable length s) (hv : jsNumberIsNaN v = false) :
    ((handleChange length s i v).2 =
      if (String.join (handleChange length s i v).1.otp).length = length
      then some (String.join (handleChange length s i v).1.otp) else none) ∧
    ((String.join (handleChange length s i v).1.otp).length = length ↔
      ∀ x ∈ (handleChange length s i v).1.otp, x ≠ "") ∧
    handleChange 4 ⟨["1", "2", "3", "4"], 2⟩ 2 "9" =
      (⟨["1", "2", "9", "4"], 3⟩, some "1294") := by
  have hinv := reachable_inv length s hr
  have hout := handleChange_otp length s i v hv
  refine ⟨?_, ?_, by decide⟩
  · rw [hout]
    simp [handleChange, hv]
  · rw [hout]
    have h1 : (s.otp.set i (lastCharString v)).length = length := by
      rw [List.length_set]
      exact hinv.1
    have h2 : ∀ x ∈ s.otp.set i (lastCharString v), x.length ≤ 1 := by
      intro x hx
      rcases List.mem_or_eq_of_mem_set hx with hmem | rfl
      · exact hinv.2 x hmem
      · exact lastCharString_length_le v
    rw [string_join_length, ← h1]
    exact sum_map_length_eq_iff _ h2

/-- C1 witness: typing "4" into the last empty slot of the reachable state
["1","2","3",""] is accepted; the callback fires with "1234", and indeed the
concatenation has full length exactly because every slot is non-empty. -/
theorem change_submits_iff_complete_witness :
    ((handleChange 4 ⟨["1", "2", "3", ""], 3⟩ 3 "4").2 =
      if (String.join (handleChange 4 ⟨["1", "2", "3", ""], 3⟩ 3 "4").1.otp).length = 4
      then some (String.join (handleChange 4 ⟨["1", "2", "3", ""], 3⟩ 3 "4").1.otp)
      else none) ∧
    ((String.join (handleChange 4 ⟨["1", "2", "3", ""], 3⟩ 3 "4").1.otp).length = 4 ↔
      ∀ x ∈ (handleChange 4 ⟨["1", "2", "3", ""], 3⟩ 3 "4").1.otp, x ≠ "") ∧
    handleChange 4 ⟨["1", "2", "3", "4"], 2⟩ 2 "9" =
      (⟨["1", "2", "9", "4"], 3⟩, some "1294") :=
  change_submits_iff_complete 4 ⟨["1", "2", "3", ""], 3⟩ 3 "4"
    ⟨[.change 0 "1", .change 1 "2", .change 2 "3"],
      by intro e he; fin_cases he <;> simp [Event.valid], by decide⟩
    (by decide)

/-- C6: clicking slot i (within bounds) redirects focus to the first empty
slot — an index holding "" with every smaller index non-empty — whenever
i > 0, slot i-1 is empty, and some empty slot exists; when i = 0 or slot i-1
is non-empty focus stays on the clicked slot; with slots ["1","2","","4"],
clicking slot 3 puts focus on slot 2. -/
theorem click_redirects_to_first_empty (s : OtpState) (i : Nat)
    (hi : i < s.otp.length) :
    (0 < i → s.otp.getD (i - 1) "" = "" →
      findIndex (fun v => v = "") s.otp ≠ -1 →
      (handleClick s i).focus = (findIndex (fun v => v = "") s.otp).toNat ∧
      s.otp.getD (handleClick s i).focus "" = "" ∧
      ∀ k < (handleClick s i).focus, s.otp.getD k "" ≠ "") ∧
    ((i = 0 ∨ s.otp.getD (i - 1) "" ≠ "") → (handleClick s i).focus = i) ∧
    handleClick ⟨["1", "2", "", "4"], 0⟩ 3 = ⟨["1", "2", "", "4"], 2⟩ := by
  refine ⟨?_, ?_, by decide⟩
  · intro h0 he h3
    have hfoc : (handleClick s i).focus = (findIndex (fun v => v = "") s.otp).toNat := by
      unfold handleClick
      dsimp only
      rw [if_pos ⟨h0, he⟩, if_pos h3]
    have hspec := findIndex_spec (fun v => decide (v = "")) s.otp h3
    refine ⟨hfoc, ?_, ?_⟩
    · rw [hfoc]
      exact of_decide_eq_true hspec.2.1
    · intro k hk
      rw [hfoc] at hk
      have h4 := hspec.2.2 k hk
      intro hcon
      rw [hcon] at h4
      simp at h4
  · intro h
    have hng : ¬ (0 < i ∧ s.otp.getD (i - 1) "" = "") := by
      rcases h with rfl | hne
      · simp
      · exact fun hc => hne hc.2
    unfold handleClick
    dsimp only
    rw [if_neg hng]

/-- C6 witness: the scenario itself — clicking slot 3 of ["1","2","","4"]
redirects focus to slot 2, the first empty slot. -/
theorem click_redirects_to_first_empty_witness :
    (0 < 3 → (⟨["1", "2", "", "4"], 0⟩ : OtpState).otp.getD (3 - 1) "" = "" →
      findIndex (fun v => v = "") (⟨["1", "2", "", "4"], 0⟩ : OtpState).otp ≠ -1 →
      (handleClick ⟨["1", "2", "", "4"], 0⟩ 3).focus =
        (findIndex (fun v => v = "") (⟨["1", "2", "", "4"], 0⟩ : OtpState).otp).toNat ∧
      (⟨["1", "2", "", "4"], 0⟩ : OtpState).otp.getD
        (handleClick ⟨["1", "2", "", "4"], 0⟩ 3).focus "" = "" ∧
      ∀ k < (handleClick ⟨["1", "2", "", "4"], 0⟩ 3).focus,
        (⟨["1", "2", "", "4"], 0⟩ : OtpState).otp.getD k "" ≠ "") ∧
    ((3 = 0 ∨ (⟨["1", "2", "", "4"], 0⟩ : OtpState).otp.getD (3 - 1) "" ≠ "") →
      (handleClick ⟨["1", "2", "", "4"], 0⟩ 3).focus = 3) ∧
    handleClick ⟨["1", "2", "", "4"], 0⟩ 3 = ⟨["1", "2", "", "4"], 2⟩ :=
  click_redirects_to_first_empty ⟨["1", "2", "", "4"], 0⟩ 3 (by decide)

/-- C9: under the click handler's own guard — i within bounds, i > 0 and slot
i-1 empty — the search for the first empty slot always succeeds: `findIndex`
does not return -1, the found index is at most i-1, and the click does
redirect focus there. -/
theorem click_guard_finds_empty (s : OtpState) (i : Nat)
    (hi : i < s.otp.length) (h0 : 0 < i) (he : s.otp.getD (i - 1) "" = "") :
    findIndex (fun v => v = "") s.otp ≠ -1 ∧
    (findIndex (fun v => v = "") s.otp).toNat ≤ i - 1 ∧
    (handleClick s i).focus = (findIndex (fun v => v = "") s.otp).toNat := by
  have hk : i - 1 < s.otp.length := by omega
  have hp : (fun v => decide (v = "")) (s.otp.getD (i - 1) "") = true := by
    show decide (s.otp.getD (i - 1) "" = "") = true
    rw [he]
    rfl
  have h := findIndex_le_of_sat (fun v => decide (v = "")) s.otp (i - 1) hk hp
  refine ⟨h.1, h.2, ?_⟩
  unfold handleClick
  dsimp only
  rw [if_pos ⟨h0, he⟩, if_pos h.1]

/-- C9 witness: clicking slot 2 of ["1","","3",""] satisfies the guard and the
search finds slot 1 (which is at most 2-1), where focus lands. -/
theorem click_guard_finds_empty_witness :
    findIndex (fun v => v = "") (⟨["1", "", "3", ""], 0⟩ : OtpState).otp ≠ -1 ∧
    (findIndex (fun v => v = "") (⟨["1", "", "3", ""], 0⟩ : OtpState).otp).toNat ≤ 2 - 1 ∧
    (handleClick ⟨["1", "", "3", ""], 0⟩ 2).focus =
      (findIndex (fun v => v = "") (⟨["1", "", "3", ""], 0⟩ : OtpState).otp).toNat :=
  click_guard_finds_empty ⟨["1", "", "3", ""], 0⟩ 2 (by decide) (by decide) (by decide)

/-- C3 counterexample: the claimed digit invariant fails on the code: from the
(reachable) mount state the change event with raw text " " at slot 0 is
accepted — `Number(" ")` is `0`, not `NaN` — and stores the space character in
slot 0, which is neither empty nor a digit "0"-"9". -/
theorem slot_digit_invariant_counterexample :
    Reachable 4 (initState 4) ∧ Event.valid 4 (.change 0 " ") ∧
    ¬ ∀ x ∈ (step 4 (initState 4) (.change 0 " ")).otp, slotOk x = true := by
  refine ⟨⟨[], by simp, rfl⟩, ?_, by decide⟩
  show (0 : Nat) < 4
  decide

/-- C3 amended: (1) with no restriction on the event's text, every handler
step from any reachable state keeps each slot empty or a single character;
and (2) restricted to change events whose raw text consists only of decimal
digit characters (which the spec's numeric-keystroke model intends), every
handler step from a correspondingly reachable state keeps every slot empty or
a single digit "0"-"9". -/
theorem slot_digit_invariant_amended (length : Nat) (s s2 : OtpState)
    (e e2 : Event) (hr : ReachableDigits length s) (hr2 : Reachable length s2)
    (hd : e.digitOnly = true) :
    (∀ x ∈ (step length s2 e2).otp, x.length ≤ 1) ∧
    (∀ x ∈ (step length s e).otp, slotOk x = true) :=
  ⟨step_slots_short length s2 e2 (reachable_inv length s2 hr2).2,
   step_slotOk length s e hd (reachableDigits_slotOk length s hr)⟩

/-- C3 amended witness: even the space-storing change event keeps slot 0 at a
single character, and after typing "5" into slot 0 of the mount state slot 0
(which now holds "5") is empty-or-digit. -/
theorem slot_digit_invariant_amended_witness :
    ((step 4 (initState 4) (.change 0 " ")).otp.getD 0 "").length ≤ 1 ∧
    slotOk ((step 4 (initState 4) (.change 0 "5")).otp.getD 0 "") = true :=
  ⟨(slot_digit_invariant_amended 4 (initState 4) (initState 4)
      (.change 0 "5") (.change 0 " ") ⟨[], by simp, by simp, rfl⟩
      ⟨[], by simp, rfl⟩ (by decide)).1
    ((step 4 (initState 4) (.change 0 " ")).otp.getD 0 "") (by decide),
   (slot_digit_invariant_amended 4 (initState 4) (initState 4)
      (.change 0 "5") (.change 0 " ") ⟨[], by simp, by simp, rfl⟩
      ⟨[], by simp, rfl⟩ (by decide)).2
    ((step 4 (initState 4) (.change 0 "5")).otp.getD 0 "") (by decide)⟩

end DynamicOtp
